import Mathlib

/-!
Shallow embedding of `object_detection_utils.py` (raster-vision,
pytorch_learner): the `BoxList` class, its operations, the COCO
ground-truth exporter `get_coco_gt`, and the torchvision adapter
method `model_output_dict_to_boxlist`.

Numbers are modelled as rationals (`ℚ`): every claim under study is
structural (permutations, filtering, concatenation, elementwise
arithmetic), not about floating-point rounding.  A torch tensor of
shape `(n, 4)` is a `List Box`; a 1-D tensor of length `n` is a
`List ℚ`.  Python `dict`s with string keys are association lists in
insertion order, matching Python 3.7+ dict iteration order.
-/

/-- One row of an `(n, 4)` box tensor: four coordinates in storage
order `c0, c1, c2, c3` (no fixed geometric meaning: the meaning
depends on the format tag). -/
structure Box where
  c0 : ℚ
  c1 : ℚ
  c2 : ℚ
  c3 : ℚ
deriving DecidableEq, Repr, Inhabited

/-- A value stored in a `BoxList`'s `extras` dict.  `isTensor`
records whether the Python value is a torch tensor (the code branches
on `torch.is_tensor`); `vals` is its per-row content (a 1-D tensor or
a plain Python sequence of numbers, one entry per row). -/
structure ExVal where
  isTensor : Bool
  vals : List ℚ
deriving DecidableEq, Repr, Inhabited

/-- Length of an extras value (its first dimension). -/
def ExVal.len (v : ExVal) : Nat := v.vals.length

/-- The supported box-format tags of `BoxList.__init__` /
`torchvision.ops.box_convert`. -/
inductive BoxFormat where
  | xyxy
  | yxyx
  | xywh
  | cxcywh
deriving DecidableEq, Repr

/-- `boxes[:, [1, 0, 3, 2]]`: swap coordinates pairwise. -/
def permute1032 (b : Box) : Box := ⟨b.c1, b.c0, b.c3, b.c2⟩

/-- `torchvision.ops.box_convert(b, 'xywh', 'xyxy')`:
`(x, y, w, h) ↦ (x, y, x + w, y + h)`. -/
def box_xywh_to_xyxy (b : Box) : Box := ⟨b.c0, b.c1, b.c0 + b.c2, b.c1 + b.c3⟩

/-- `torchvision.ops.box_convert(b, 'cxcywh', 'xyxy')`:
`(cx, cy, w, h) ↦ (cx - w/2, cy - h/2, cx + w/2, cy + h/2)`. -/
def box_cxcywh_to_xyxy (b : Box) : Box :=
  ⟨b.c0 - b.c2 / 2, b.c1 - b.c3 / 2, b.c0 + b.c2 / 2, b.c1 + b.c3 / 2⟩

/-- The `BoxList` class: an `(n, 4)` box tensor plus the `extras`
keyword dict. -/
structure BoxList where
  boxes : List Box
  extras : List (String × ExVal)
deriving DecidableEq, Repr, Inhabited

/-- `BoxList.__init__(boxes, format='xyxy', **extras)`: stores
`extras` as given; stores `boxes` unchanged when `format == 'xyxy'`,
permuted by `[1, 0, 3, 2]` when `format == 'yxyx'`, and otherwise via
`box_convert(boxes, format, 'xyxy')`. -/
def BoxList.init (boxes : List Box) (format : BoxFormat)
    (extras : List (String × ExVal)) : BoxList :=
  match format with
  | .xyxy => ⟨boxes, extras⟩
  | .yxyx => ⟨boxes.map permute1032, extras⟩
  | .xywh => ⟨boxes.map box_xywh_to_xyxy, extras⟩
  | .cxcywh => ⟨boxes.map box_cxcywh_to_xyxy, extras⟩

/-- `len(boxlist)` = `len(self.boxes)` = `n`. -/
def BoxList.length (bl : BoxList) : Nat := bl.boxes.length

/-- `self.extras.get(name)`: dict lookup (first binding). -/
def BoxList.getExtra (bl : BoxList) (name : String) : Option ExVal :=
  bl.extras.lookup name

/-- `BoxList._map_extras(func, cond)`: rebuild the extras dict,
applying `func` where `cond` holds and keeping the value otherwise. -/
def BoxList.mapExtras (bl : BoxList) (func : String → ExVal → ExVal)
    (cond : String → ExVal → Bool) : List (String × ExVal) :=
  bl.extras.map (fun kv => (kv.1, if cond kv.1 kv.2 then func kv.1 kv.2 else kv.2))

/-- Spec-level canonicalisation: the `(x_min, y_min, x_max, y_max)`
tuple described by a box given in format `fmt`, written from the
meaning of each format tag (for `yxyx` the input reads
`(y_min, x_min, y_max, x_max)`, for `xywh` it reads
`(x_min, y_min, width, height)`, for `cxcywh` it reads
`(center_x, center_y, width, height)`). -/
def toCanonicalXYXY : BoxFormat → Box → Box
  | .xyxy, b => b
  | .yxyx, b => ⟨b.c1, b.c0, b.c3, b.c2⟩
  | .xywh, b => ⟨b.c0, b.c1, b.c0 + b.c2, b.c1 + b.c3⟩
  | .cxcywh, b => ⟨b.c0 - b.c2 / 2, b.c1 - b.c3 / 2, b.c0 + b.c2 / 2, b.c1 + b.c3 / 2⟩

example : (BoxList.init [⟨1, 2, 3, 4⟩] .yxyx []).boxes = [⟨2, 1, 4, 3⟩] := by decide

example : (BoxList.init [⟨1, 2, 3, 4⟩] .xyxy []).boxes = [⟨1, 2, 3, 4⟩] := by decide

/-- Integer-index gather `t[inds]`: row `i` of the result is row
`inds[i]` of `t`. -/
def gather {α : Type} [Inhabited α] (inds : List Nat) (xs : List α) : List α :=
  inds.map (fun i => xs.getD i default)

/-- The positions (from offset `i`) at which a boolean mask is true;
boolean-mask indexing `t[mask]` gathers exactly these rows. -/
def trueInds : List Bool → Nat → List Nat
  | [], _ => []
  | b :: bs, i => if b then i :: trueInds bs (i + 1) else trueInds bs (i + 1)

/-- Boolean-mask filtering of a list (rows of `xs` where `mask` is
true); the reference semantics of `t[mask]` for `mask.length =
t.length`. -/
def maskFilter {α : Type} (mask : List Bool) (xs : List α) : List α :=
  (xs.zip mask).filterMap (fun p => if p.2 then some p.1 else none)

/-- `BoxList.ind_filter(inds)`: gathers `self.boxes[inds]` and every
tensor-valued extra at `inds` (`cond=torch.is_tensor`); non-tensor
extras are kept unchanged by `_map_extras`. -/
def BoxList.ind_filter (bl : BoxList) (inds : List Nat) : BoxList :=
  BoxList.init (gather inds bl.boxes) .xyxy
    (bl.mapExtras (fun _ v => ⟨v.isTensor, gather inds v.vals⟩)
      (fun _ v => v.isTensor))

/-- `BoxList.score_filter(score_thresh=0.25)`: if `'scores'` is
present in `extras`, index-filters by the boolean mask
`scores > score_thresh` (strict); otherwise raises
`ValueError('must have scores as key in extras')`. -/
def BoxList.score_filter (bl : BoxList) (score_thresh : ℚ := 1/4) :
    Except String BoxList :=
  match bl.getExtra "scores" with
  | some v => .ok (bl.ind_filter (trueInds (v.vals.map (fun s => decide (score_thresh < s))) 0))
  | none => .error "must have scores as key in extras"

/-- `max 0 (min x hi)`: clamp into `[0, hi]`. -/
def clamp0 (hi x : ℚ) : ℚ := max 0 (min x hi)

/-- `torchvision.ops.clip_boxes_to_image(b, (height, width))` on an
xyxy row: coordinates 0 and 2 (x) are clamped into `[0, width]`,
coordinates 1 and 3 (y) into `[0, height]`. -/
def clip_box_to_image (height width : ℚ) (b : Box) : Box :=
  ⟨clamp0 width b.c0, clamp0 height b.c1, clamp0 width b.c2, clamp0 height b.c3⟩

/-- `BoxList.clip_boxes(img_height, img_width)`: clips every box to
the image; passes `**self.extras` through unchanged. -/
def BoxList.clip_boxes (bl : BoxList) (img_height img_width : ℚ) : BoxList :=
  BoxList.init (bl.boxes.map (clip_box_to_image img_height img_width)) .xyxy bl.extras

/-- `BoxList.scale(yscale, xscale)`: multiplies the box tensor
elementwise by the row `[[yscale, xscale, yscale, xscale]]`; passes
`**self.extras` through unchanged. -/
def BoxList.scale (bl : BoxList) (yscale xscale : ℚ) : BoxList :=
  BoxList.init
    (bl.boxes.map (fun b => ⟨b.c0 * yscale, b.c1 * xscale, b.c2 * yscale, b.c3 * xscale⟩))
    .xyxy bl.extras

/-- Insert keys at the end of `acc`, in order, skipping keys already
present: the update order of a `defaultdict` keyed over successive
dicts. -/
def insertKeys (acc : List String) (ks : List String) : List String :=
  ks.foldl (fun a k => if k ∈ a then a else a ++ [k]) acc

/-- `BoxList.cat(box_lists)`: concatenates the box tensors in input
order and, for every key in order of first appearance, concatenates
(`torch.cat`) the extras values of those inputs that contain the key.
No key-set validation is performed. -/
def BoxList.cat (box_lists : List BoxList) : BoxList :=
  let boxes := box_lists.flatMap (fun bl => bl.boxes)
  let keys := box_lists.foldl (fun a bl => insertKeys a (bl.extras.map Prod.fst)) []
  let extras := keys.map (fun k =>
    (k, ExVal.mk true ((box_lists.filterMap (fun bl => bl.extras.lookup k)).flatMap ExVal.vals)))
  BoxList.init boxes .xyxy extras

/-- Row `i` of `torch.cat([self.boxes] + extras, 1)`: the four box
coordinates followed by the value of every extras entry at row `i`,
in dict order. -/
def BoxList.row (bl : BoxList) (i : Nat) : List ℚ :=
  [(bl.boxes.getD i default).c0, (bl.boxes.getD i default).c1,
   (bl.boxes.getD i default).c2, (bl.boxes.getD i default).c3]
    ++ bl.extras.map (fun kv => kv.2.vals.getD i 0)

/-- The list of all rows of `torch.cat([self.boxes] + extras, 1)`. -/
def BoxList.rows (bl : BoxList) : List (List ℚ) :=
  (List.range bl.boxes.length).map bl.row

/-- `BoxList.equal(other)`: `False` when lengths differ; otherwise
compares the sets of box+extras row tuples, ignoring row order. -/
def BoxList.equal (bl other : BoxList) : Bool :=
  if other.length ≠ bl.length then false
  else decide (bl.rows.toFinset = other.rows.toFinset)

/-- `t.copy()` on a torch tensor: `torch.Tensor` has no method named
`copy` (cloning is `clone`; in-place copying is `copy_`), so the
attribute lookup raises `AttributeError` for every tensor. -/
def tensor_copy {α : Type} (_ : List α) : Except String (List α) :=
  .error "AttributeError"

/-- `v.copy()` on an extras value: raises `AttributeError` when the
value is a torch tensor; a plain Python sequence (e.g. `list`) has a
`copy` method returning a shallow copy. -/
def ExVal.copyMethod (v : ExVal) : Except String ExVal :=
  if v.isTensor then .error "AttributeError" else .ok v

/-- Stand-in for the lambda object `cond=lambda k, v:
torch.is_tensor(v)` that `BoxList.copy` passes as a keyword argument
to `BoxList(...)`, where it lands in `**extras` under the key
`'cond'` (it is not an argument of `__init__`). -/
def condLambdaValue : ExVal := ⟨false, []⟩

/-- `BoxList.copy()`: evaluates `self.boxes.copy()` first (raising
`AttributeError`, since tensors have no `copy`), then
`self._map_extras(lambda k, v: v.copy())` with the default
always-true `cond`, then calls `BoxList` with the keyword argument
`cond=...`, which the constructor would store as an extras entry
named `'cond'`. -/
def BoxList.copy (bl : BoxList) : Except String BoxList := do
  let bs ← tensor_copy bl.boxes
  let ex ← bl.extras.mapM (fun kv => (kv.2.copyMethod).map (fun v => (kv.1, v)))
  .ok (BoxList.init bs .xyxy (ex ++ [("cond", condLambdaValue)]))

example : (BoxList.init [⟨0,0,2,2⟩, ⟨1,1,3,3⟩] .xyxy
    [("scores", ⟨true, [Rat.divInt 3 10, Rat.divInt 6 10]⟩)]).score_filter (Rat.divInt 1 2) =
    .ok (BoxList.init [⟨1,1,3,3⟩] .xyxy [("scores", ⟨true, [Rat.divInt 6 10]⟩)]) := by rfl

/-- One record of the `images` list built by `get_coco_gt`. -/
structure CocoImage where
  id : Nat
  height : Nat
  width : Nat
  file_name : String
deriving DecidableEq, Repr

/-- One record of the `annotations` list built by `get_coco_gt`. -/
structure CocoAnn where
  id : Nat
  image_id : Nat
  category_id : Int
  area : ℚ
  bbox : List ℚ
  iscrowd : Nat
deriving DecidableEq, Repr

/-- One record of the `categories` list built by `get_coco_gt`. -/
structure CocoCat where
  id : Nat
  name : String
  supercategory : String
deriving DecidableEq, Repr

/-- The dict returned by `get_coco_gt`. -/
structure CocoGT where
  images : List CocoImage
  annotations : List CocoAnn
  categories : List CocoCat
deriving DecidableEq, Repr

/-- One ground-truth target: a `BoxList`-like pair of a box tensor
and its `class_ids` field, as consumed by `get_coco_gt` via
`target.boxes` and `target.get_field('class_ids')`. -/
structure GTTarget where
  boxes : List Box
  class_ids : List Int
deriving Repr

/-- The inner loop of `get_coco_gt` over `zip(boxes, class_ids)` for
one image: each box `box` (read positionally) yields an annotation
with `category_id = class_id + 1`,
`area = (box[2] - box[0]) * (box[3] - box[1])`,
`bbox = [box[1], box[0], box[3] - box[1], box[2] - box[0]]`,
`iscrowd = 0`, with `ann_id` increasing by one per annotation. -/
def cocoAnnsOfTarget (img_id ann_id : Nat) : List (Box × Int) → List CocoAnn
  | [] => []
  | (b, cid) :: rest =>
    { id := ann_id
      image_id := img_id
      category_id := cid + 1
      area := (b.c2 - b.c0) * (b.c3 - b.c1)
      bbox := [b.c1, b.c0, b.c3 - b.c1, b.c2 - b.c0]
      iscrowd := 0 } :: cocoAnnsOfTarget img_id (ann_id + 1) rest

/-- The outer loop of `get_coco_gt` over `enumerate(targets, 1)`:
threads the global `ann_id` counter across images. -/
def cocoAnnsLoop : List GTTarget → Nat → Nat → List CocoAnn
  | [], _, _ => []
  | t :: rest, img_id, ann_id =>
    let anns := cocoAnnsOfTarget img_id ann_id (t.boxes.zip t.class_ids)
    anns ++ cocoAnnsLoop rest (img_id + 1) (ann_id + anns.length)

/-- `get_coco_gt(targets, num_class_ids)`: images get ids 1, 2, ...
in input order with fake height/width 1000 and file name
`'{id}.png'`; annotations are built per image with a global `ann_id`
counter starting at 1; categories are
`{'id': c + 1, 'name': str(c + 1), 'supercategory': 'super'}` for
`c in range(num_class_ids)`. -/
def get_coco_gt (targets : List GTTarget) (num_class_ids : Nat) : CocoGT :=
  { images := (List.range targets.length).map (fun i =>
      { id := i + 1, height := 1000, width := 1000
        file_name := toString (i + 1) ++ ".png" })
    annotations := cocoAnnsLoop targets 1 1
    categories := (List.range num_class_ids).map (fun c =>
      { id := c + 1, name := toString (c + 1), supercategory := "super" }) }

/-- A dict output by a torchvision detection model in eval mode:
parallel `boxes`, `labels`, `scores` tensors. -/
structure ModelOutput where
  boxes : List Box
  labels : List Int
  scores : List ℚ
deriving Repr

/-- Elementwise `&` of two boolean mask tensors. -/
def maskAnd (m1 m2 : List Bool) : List Bool := List.zipWith and m1 m2

/-- `reduce(iand, [out['labels'] != i for i in ignored])`: the
combined exclusion mask; `reduce` over an empty sequence (empty
`ignored_output_inds`) raises `TypeError`. -/
def combinedMask (ignored : List Int) (labels : List Int) : Option (List Bool) :=
  match ignored with
  | [] => none
  | i :: rest =>
    some (rest.foldl (fun m j => maskAnd m (labels.map (fun x => decide (x ≠ j))))
      (labels.map (fun x => decide (x ≠ i))))

/-- `TorchVisionODAdapter.model_output_dict_to_boxlist(out)` with the
adapter's `ignored_output_inds`: keeps only the detections whose
label differs from every ignored index (one combined `&` mask), then
builds `BoxList(boxes=out['boxes'][mask],
class_ids=out['labels'][mask] - 1, scores=out['scores'][mask])`. -/
def model_output_dict_to_boxlist (ignored : List Int) (out : ModelOutput) :
    Option BoxList :=
  (combinedMask ignored out.labels).map (fun mask =>
    BoxList.init (maskFilter mask out.boxes) .xyxy
      [("class_ids", ⟨true, (maskFilter mask out.labels).map (fun l => ((l - 1 : Int) : ℚ))⟩),
       ("scores", ⟨true, maskFilter mask out.scores⟩)])

example : model_output_dict_to_boxlist [0]
    ⟨[⟨0,0,1,1⟩, ⟨1,1,2,2⟩, ⟨2,2,3,3⟩], [0, 1, 2], [9, 8, 7]⟩ =
    some (BoxList.init [⟨1,1,2,2⟩, ⟨2,2,3,3⟩] .xyxy
      [("class_ids", ⟨true, [0, 1]⟩), ("scores", ⟨true, [8, 7]⟩)]) := by rfl

/-- Invariant I1 of the spec at a given state: every extras value has
the same length as `boxes`. -/
def BoxList.parallelInvariant (bl : BoxList) : Prop :=
  ∀ kv ∈ bl.extras, kv.2.len = bl.length

instance (bl : BoxList) : Decidable bl.parallelInvariant :=
  inferInstanceAs (Decidable (∀ kv ∈ bl.extras, kv.2.len = bl.length))

/-- C1, counterexample.  Constructing from a `yxyx` input does NOT
store the coordinates unpermuted: the input row `(1, 2, 3, 4)` is
stored as `(2, 1, 4, 3)`.  It is the `xyxy` input that is stored
unpermuted, because the internal storage order is
`(x_min, y_min, x_max, y_max)`, not `(y_min, x_min, y_max, x_max)`. -/
theorem C1_yxyx_not_stored_unpermuted :
    (BoxList.init [⟨1, 2, 3, 4⟩] .yxyx []).boxes ≠ [⟨1, 2, 3, 4⟩] ∧
    (BoxList.init [⟨1, 2, 3, 4⟩] .xyxy []).boxes = [⟨1, 2, 3, 4⟩] := by decide

/-- C1, amended.  For every supported input format, the stored
`boxes` array is the input converted to canonical
`(x_min, y_min, x_max, y_max)` (xyxy) order: `xyxy` input is stored
unpermuted, `yxyx` input is permuted into xyxy, and `xywh` / `cxcywh`
inputs are converted into xyxy; `extras` are stored as given. -/
theorem C1_canonical_storage_xyxy (boxes : List Box) (fmt : BoxFormat)
    (extras : List (String × ExVal)) :
    (BoxList.init boxes fmt extras).boxes = boxes.map (toCanonicalXYXY fmt) := by
  cases fmt
  · exact (List.map_id' boxes).symm
  · rfl
  · rfl
  · rfl

/-- C2, counterexample.  Constructing a `BoxList` with 1 box and an
extras entry of length 3 does not fail: `__init__` performs no shape
validation, and the mismatched entry is stored exactly as given. -/
theorem C2_mismatched_extra_stored_silently :
    (BoxList.init [⟨0, 0, 1, 1⟩] .xyxy [("scores", ⟨true, [1, 2, 3]⟩)]).length = 1 ∧
    (BoxList.init [⟨0, 0, 1, 1⟩] .xyxy [("scores", ⟨true, [1, 2, 3]⟩)]).extras
      = [("scores", ⟨true, [1, 2, 3]⟩)] ∧
    ¬ (BoxList.init [⟨0, 0, 1, 1⟩] .xyxy
        [("scores", ⟨true, [1, 2, 3]⟩)]).parallelInvariant := by decide

/-- C2, amended.  `BoxList.__init__` stores `extras` as given for
every input, with no length validation of any kind: a mismatched
extras entry is silently accepted. -/
theorem C2_extras_stored_as_given (boxes : List Box) (fmt : BoxFormat)
    (extras : List (String × ExVal)) :
    (BoxList.init boxes fmt extras).extras = extras := by
  cases fmt <;> rfl

/-- C4.  `scale(yscale, xscale)` multiplies each stored box row —
read positionally as `(y_min, x_min, y_max, x_max)` — elementwise by
`(yscale, xscale, yscale, xscale)` (coordinate 0 by `yscale`,
coordinate 1 by `xscale`, coordinate 2 by `yscale`, coordinate 3 by
`xscale`), and passes `extras` through unchanged. -/
theorem C4_scale_elementwise (bl : BoxList) (yscale xscale : ℚ) :
    (bl.scale yscale xscale).boxes
      = bl.boxes.map (fun b => ⟨b.c0 * yscale, b.c1 * xscale, b.c2 * yscale, b.c3 * xscale⟩) ∧
    (bl.scale yscale xscale).extras = bl.extras :=
  ⟨rfl, rfl⟩

lemma gather_length {α : Type} [Inhabited α] (inds : List Nat) (xs : List α) :
    (gather inds xs).length = inds.length := by
  simp [gather]

/-- Under an all-tensor extras dict, `ind_filter` gathers every
extras entry at `inds`. -/
lemma ind_filter_extras_eq (bl : BoxList) (inds : List Nat)
    (hT : ∀ kv ∈ bl.extras, kv.2.isTensor = true) :
    (bl.ind_filter inds).extras
      = bl.extras.map (fun kv => (kv.1, ⟨kv.2.isTensor, gather inds kv.2.vals⟩)) := by
  have h2 : (bl.ind_filter inds).extras
      = bl.mapExtras (fun _ v => ⟨v.isTensor, gather inds v.vals⟩)
          (fun _ v => v.isTensor) := rfl
  rw [h2]
  unfold BoxList.mapExtras
  exact List.map_congr_left (fun kv hkv => by simp [hT kv hkv])

/-- Under an all-tensor extras dict, `ind_filter` restores invariant
I1 regardless of the input lengths: every output array has one row
per index. -/
lemma ind_filter_parallel (bl : BoxList) (inds : List Nat)
    (hT : ∀ kv ∈ bl.extras, kv.2.isTensor = true) :
    (bl.ind_filter inds).parallelInvariant := by
  intro kv hkv
  rw [ind_filter_extras_eq bl inds hT] at hkv
  obtain ⟨kv', _, rfl⟩ := List.mem_map.mp hkv
  show (gather inds kv'.2.vals).length = (gather inds bl.boxes).length
  rw [gather_length, gather_length]

/-- C3, counterexample.  A `BoxList` with two boxes and a non-tensor
extras entry of length 2 satisfies invariant I1, but `ind_filter [0]`
leaves the non-tensor entry untouched (`cond=torch.is_tensor`), so
the result has 1 box and an extras entry of length 2: the invariant
is not preserved for non-tensor value types. -/
theorem C3_nontensor_extra_not_indexed :
    (BoxList.init [⟨0, 0, 1, 1⟩, ⟨2, 2, 3, 3⟩] .xyxy
      [("tag", ⟨false, [5, 6]⟩)]).parallelInvariant ∧
    ((BoxList.init [⟨0, 0, 1, 1⟩, ⟨2, 2, 3, 3⟩] .xyxy
      [("tag", ⟨false, [5, 6]⟩)]).ind_filter [0]).length = 1 ∧
    ((BoxList.init [⟨0, 0, 1, 1⟩, ⟨2, 2, 3, 3⟩] .xyxy
      [("tag", ⟨false, [5, 6]⟩)]).ind_filter [0]).extras = [("tag", ⟨false, [5, 6]⟩)] ∧
    ¬ ((BoxList.init [⟨0, 0, 1, 1⟩, ⟨2, 2, 3, 3⟩] .xyxy
      [("tag", ⟨false, [5, 6]⟩)]).ind_filter [0]).parallelInvariant := by decide

/-- C3, amended.  For every `BoxList` whose extras are all
tensor-valued and satisfy invariant I1, the filter/scale/clip
operations preserve the invariant: `ind_filter` applies the identical
gather to every (tensor) extras entry, `score_filter` (when it
succeeds) index-filters every entry by the same mask, and
`clip_boxes` / `scale` leave extras unchanged.  Non-tensor extras,
however, are passed through `ind_filter` unchanged
(`cond=torch.is_tensor`), so the claim's "regardless of the entry's
value type" holds only for tensor entries. -/
theorem C3_invariant_preservation (bl : BoxList)
    (hT : ∀ kv ∈ bl.extras, kv.2.isTensor = true)
    (hI : bl.parallelInvariant) :
    (∀ inds : List Nat,
      (bl.ind_filter inds).parallelInvariant ∧
      (bl.ind_filter inds).extras
        = bl.extras.map (fun kv => (kv.1, ⟨kv.2.isTensor, gather inds kv.2.vals⟩))) ∧
    (∀ (t : ℚ) (bl' : BoxList), bl.score_filter t = .ok bl' → bl'.parallelInvariant) ∧
    (∀ h w : ℚ, (bl.clip_boxes h w).parallelInvariant) ∧
    (∀ ys xs : ℚ, (bl.scale ys xs).parallelInvariant) := by
  refine ⟨fun inds => ⟨ind_filter_parallel bl inds hT, ind_filter_extras_eq bl inds hT⟩,
    fun t bl' hok => ?_, fun h w kv hkv => ?_, fun ys xs kv hkv => ?_⟩
  · unfold BoxList.score_filter at hok
    cases hv : bl.getExtra "scores" with
    | none => rw [hv] at hok; exact absurd hok (by simp)
    | some v =>
      rw [hv] at hok
      obtain rfl : bl.ind_filter _ = bl' := by simpa using hok
      exact ind_filter_parallel bl _ hT
  · exact (hI kv hkv).trans (by simp [BoxList.clip_boxes, BoxList.init, BoxList.length])
  · exact (hI kv hkv).trans (by simp [BoxList.scale, BoxList.init, BoxList.length])

/-- A concrete well-formed `BoxList` with all-tensor extras. -/
def blW3 : BoxList :=
  BoxList.init [⟨0, 0, 1, 1⟩, ⟨2, 2, 3, 3⟩] .xyxy [("scores", ⟨true, [7, 9]⟩)]

/-- Witness for C3: the amended invariant-preservation theorem
applied to a concrete two-box list with a tensor `scores` extra. -/
theorem C3_invariant_preservation_witness :
    (blW3.ind_filter [0]).parallelInvariant ∧
    (blW3.ind_filter [0]).extras
      = blW3.extras.map (fun kv => (kv.1, ⟨kv.2.isTensor, gather [0] kv.2.vals⟩)) :=
  (C3_invariant_preservation blW3 (by decide) (by decide)).1 [0]

lemma maskFilter_cons {α : Type} (b : Bool) (mask : List Bool) (x : α) (xs : List α) :
    maskFilter (b :: mask) (x :: xs)
      = if b then x :: maskFilter mask xs else maskFilter mask xs := by
  cases b <;> simp [maskFilter]

/-- Boolean-mask indexing is the gather at the mask's true positions:
`t[mask] == t[mask.nonzero()]`. -/
lemma gather_trueInds_eq_maskFilter {α : Type} [Inhabited α] :
    ∀ (mask : List Bool) (xs acc : List α), mask.length = xs.length →
      (trueInds mask acc.length).map (fun j => (acc ++ xs).getD j default)
        = maskFilter mask xs := by
  intro mask
  induction mask with
  | nil =>
    intro xs acc h
    obtain rfl : xs = [] := List.eq_nil_of_length_eq_zero h.symm
    simp [trueInds, maskFilter]
  | cons b bs ih =>
    intro xs acc h
    cases xs with
    | nil => simp at h
    | cons x xs' =>
      have hlen : bs.length = xs'.length := by simpa using h
      have hx : (acc ++ x :: xs').getD acc.length default = x := by
        rw [List.getD_eq_getElem?_getD, List.getElem?_append_right (Nat.le_refl _)]
        simp
      have hih := ih xs' (acc ++ [x]) hlen
      rw [List.length_append, List.length_singleton] at hih
      have hrest : (fun j => ((acc ++ [x]) ++ xs').getD j default)
          = (fun j => (acc ++ x :: xs').getD j default) := by
        funext j; rw [List.append_assoc]; rfl
      rw [hrest] at hih
      cases b with
      | false =>
        show (trueInds bs (acc.length + 1)).map (fun j => (acc ++ x :: xs').getD j default)
          = maskFilter (false :: bs) (x :: xs')
        rw [maskFilter_cons, hih]
        rfl
      | true =>
        show (acc.length :: trueInds bs (acc.length + 1)).map
            (fun j => (acc ++ x :: xs').getD j default)
          = maskFilter (true :: bs) (x :: xs')
        rw [maskFilter_cons, List.map_cons, hx, hih]
        rfl

/-- Filtering a list by the mask of a predicate over itself is
`List.filter`. -/
lemma maskFilter_map_self {α : Type} (p : α → Bool) (xs : List α) :
    maskFilter (xs.map p) xs = xs.filter p := by
  induction xs with
  | nil => rfl
  | cons x xs ih =>
    rw [List.map_cons, maskFilter_cons, List.filter_cons, ih]

/-- Filtering a parallel list by the mask of a predicate over `xs`
keeps the entries of `ys` at positions where the predicate holds. -/
lemma maskFilter_map_zip {α β : Type} (p : β → Bool) :
    ∀ (ys : List α) (xs : List β), ys.length = xs.length →
      maskFilter (xs.map p) ys
        = (ys.zip xs).filterMap (fun q => if p q.2 then some q.1 else none) := by
  intro ys
  induction ys with
  | nil => intro xs h; simp [maskFilter]
  | cons y ys ih =>
    intro xs h
    cases xs with
    | nil => simp at h
    | cons x xs' =>
      have hlen : ys.length = xs'.length := by simpa using h
      rw [List.map_cons, maskFilter_cons, List.zip_cons_cons, List.filterMap_cons, ih xs' hlen]
      cases hp : p x <;> simp

/-- Looking a key up in an assoc list whose values were rewritten
key-wise. -/
lemma lookup_map_snd {β γ : Type} (g : String → β → γ) (k : String) :
    ∀ l : List (String × β),
      List.lookup k (l.map (fun kv => (kv.1, g kv.1 kv.2))) = (List.lookup k l).map (g k) := by
  intro l
  induction l with
  | nil => rfl
  | cons kv l ih =>
    by_cases h : k = kv.1
    · subst h; simp [List.lookup]
    · have hb : (k == kv.1) = false := beq_false_of_ne h
      simp [List.lookup, hb, ih]

/-- `ind_filter` rewrites each extras entry value-wise, so extras
lookups commute with it. -/
lemma ind_filter_getExtra (bl : BoxList) (inds : List Nat) (name : String) :
    (bl.ind_filter inds).getExtra name
      = (bl.getExtra name).map
          (fun v => if v.isTensor then ⟨v.isTensor, gather inds v.vals⟩ else v) := by
  have h := lookup_map_snd
    (fun (_ : String) (v : ExVal) =>
      if v.isTensor then (⟨v.isTensor, gather inds v.vals⟩ : ExVal) else v) name bl.extras
  exact h

/-- C6.  `score_filter(t)` on a `BoxList` whose `'scores'` extra is a
tensor parallel to `boxes` keeps exactly the rows whose score is
strictly greater than `t` (both in `boxes` and in the `'scores'`
extra of the result); on a `BoxList` with no `'scores'` extra it
raises `ValueError('must have scores as key in extras')` instead of
returning a result. -/
theorem C6_score_filter_strict :
    (∀ (bl : BoxList) (t : ℚ) (sv : List ℚ),
      bl.getExtra "scores" = some ⟨true, sv⟩ →
      sv.length = bl.boxes.length →
      ∃ bl', bl.score_filter t = .ok bl' ∧
        bl'.boxes = (bl.boxes.zip sv).filterMap
          (fun q => if t < q.2 then some q.1 else none) ∧
        bl'.getExtra "scores" = some ⟨true, sv.filter (fun s => decide (t < s))⟩) ∧
    (∀ (bl : BoxList) (t : ℚ), bl.getExtra "scores" = none →
      bl.score_filter t = .error "must have scores as key in extras") := by
  constructor
  · intro bl t sv hv hlen
    refine ⟨bl.ind_filter (trueInds (sv.map (fun s => decide (t < s))) 0), ?_, ?_, ?_⟩
    · unfold BoxList.score_filter
      rw [hv]
    · have hmask : (sv.map (fun s => decide (t < s))).length = bl.boxes.length := by
        simpa using hlen
      have h1 := gather_trueInds_eq_maskFilter (sv.map (fun s => decide (t < s)))
        bl.boxes ([] : List Box) hmask
      simp only [List.length_nil, List.nil_append] at h1
      have hboxes : (bl.ind_filter (trueInds (sv.map (fun s => decide (t < s))) 0)).boxes
          = gather (trueInds (sv.map (fun s => decide (t < s))) 0) bl.boxes := rfl
      rw [hboxes]
      unfold gather
      rw [h1, maskFilter_map_zip (fun s => decide (t < s)) bl.boxes sv hlen.symm]
      have hfun : (fun q : Box × ℚ => if decide (t < q.2) then some q.1 else none)
          = (fun q : Box × ℚ => if t < q.2 then some q.1 else none) := by
        funext q; by_cases hq : t < q.2 <;> simp [hq]
      rw [hfun]
    · rw [ind_filter_getExtra, hv]
      have hg : gather (trueInds (sv.map (fun s => decide (t < s))) 0) sv
          = sv.filter (fun s => decide (t < s)) := by
        have h1 := gather_trueInds_eq_maskFilter (sv.map (fun s => decide (t < s)))
          sv ([] : List ℚ) (by simp)
        simp only [List.length_nil, List.nil_append] at h1
        unfold gather
        rw [h1, maskFilter_map_self]
      simp [hg]
  · intro bl t hv
    unfold BoxList.score_filter
    rw [hv]

/-- The spec's scenario input: three boxes with scores
`[0.3, 0.6, 0.5]`. -/
def blW6 : BoxList :=
  BoxList.init [⟨0, 0, 1, 1⟩, ⟨1, 1, 2, 2⟩, ⟨2, 2, 3, 3⟩] .xyxy
    [("scores", ⟨true, [Rat.divInt 3 10, Rat.divInt 6 10, Rat.divInt 5 10]⟩)]

/-- A `BoxList` with no `'scores'` extra. -/
def blE6 : BoxList := BoxList.init [⟨0, 0, 1, 1⟩] .xyxy [("class_ids", ⟨true, [2]⟩)]

/-- Witness for C6: on scores `[0.3, 0.6, 0.5]` with threshold `0.5`
the filter keeps only index 1, and a scores-less list errors. -/
theorem C6_score_filter_strict_witness :
    (∃ bl', blW6.score_filter (Rat.divInt 1 2) = .ok bl' ∧
      bl'.boxes = (blW6.boxes.zip [Rat.divInt 3 10, Rat.divInt 6 10, Rat.divInt 5 10]).filterMap
        (fun q => if Rat.divInt 1 2 < q.2 then some q.1 else none) ∧
      bl'.getExtra "scores" = some ⟨true,
        [Rat.divInt 3 10, Rat.divInt 6 10, Rat.divInt 5 10].filter
          (fun s => decide (Rat.divInt 1 2 < s))⟩) ∧
    blE6.score_filter (Rat.divInt 1 2) = .error "must have scores as key in extras" ∧
    blW6.score_filter (Rat.divInt 1 2)
      = .ok (BoxList.init [⟨1, 1, 2, 2⟩] .xyxy [("scores", ⟨true, [Rat.divInt 6 10]⟩)]) :=
  ⟨C6_score_filter_strict.1 blW6 (Rat.divInt 1 2)
      [Rat.divInt 3 10, Rat.divInt 6 10, Rat.divInt 5 10] rfl rfl,
    C6_score_filter_strict.2 blE6 (Rat.divInt 1 2) rfl,
    rfl⟩

lemma maskAnd_map {α : Type} (f g : α → Bool) (l : List α) :
    maskAnd (l.map f) (l.map g) = l.map (fun x => f x && g x) := by
  induction l with
  | nil => rfl
  | cons x l ih => simp only [List.map_cons, maskAnd, List.zipWith_cons_cons] at *; rw [ih]

lemma all_ne_eq_decide_not_mem (l : List Int) (x : Int) :
    l.all (fun j => decide (x ≠ j)) = decide (x ∉ l) := by
  induction l with
  | nil => simp
  | cons a l ih =>
    rw [List.all_cons, ih]
    by_cases h : x = a
    · simp [h]
    · simp [h, List.mem_cons]

/-- The `reduce(iand, ...)` mask keeps row `j` iff `labels[j]` is in
none of the ignored indices. -/
lemma combinedMask_eq (ignored lbls : List Int) (hne : ignored ≠ []) :
    combinedMask ignored lbls = some (lbls.map (fun x => decide (x ∉ ignored))) := by
  cases ignored with
  | nil => exact absurd rfl hne
  | cons i rest =>
    have hfold : ∀ (rest' : List Int) (f : Int → Bool),
        rest'.foldl (fun m j => maskAnd m (lbls.map (fun x => decide (x ≠ j)))) (lbls.map f)
          = lbls.map (fun x => f x && rest'.all (fun j => decide (x ≠ j))) := by
      intro rest'
      induction rest' with
      | nil => intro f; simp
      | cons j rest' ih =>
        intro f
        rw [List.foldl_cons, maskAnd_map, ih]
        have : (fun x => (f x && decide (x ≠ j)) && rest'.all (fun j' => decide (x ≠ j')))
            = (fun x => f x && (j :: rest').all (fun j' => decide (x ≠ j'))) := by
          funext x; rw [List.all_cons, Bool.and_assoc]
        rw [this]
    show some (rest.foldl (fun m j => maskAnd m (lbls.map (fun x => decide (x ≠ j))))
        (lbls.map (fun x => decide (x ≠ i))))
      = some (lbls.map (fun x => decide (x ∉ i :: rest)))
    rw [hfold rest (fun x => decide (x ≠ i))]
    have : (fun x => decide (x ≠ i) && rest.all (fun j => decide (x ≠ j)))
        = (fun x : Int => decide (x ∉ i :: rest)) := by
      funext x
      have h := all_ne_eq_decide_not_mem (i :: rest) x
      rw [List.all_cons] at h
      exact h
    rw [this]

/-- C7.  For a model output dict with parallel `boxes`, `labels`,
`scores` and a non-empty ignored index list, the adapter keeps
exactly the detections whose label is in none of the ignored indices
(one combined logical-AND mask), stores `class_ids = labels - 1` for
the survivors, and carries their scores through. -/
theorem C7_from_model_output (ignored : List Int) (out : ModelOutput)
    (hne : ignored ≠ [])
    (hb : out.boxes.length = out.labels.length)
    (hs : out.scores.length = out.labels.length) :
    model_output_dict_to_boxlist ignored out
      = some (BoxList.init
          ((out.boxes.zip out.labels).filterMap
            (fun q => if q.2 ∈ ignored then none else some q.1)) .xyxy
          [("class_ids", ⟨true, (out.labels.filter (fun l => decide (l ∉ ignored))).map
              (fun l => ((l - 1 : Int) : ℚ))⟩),
           ("scores", ⟨true, (out.scores.zip out.labels).filterMap
              (fun q => if q.2 ∈ ignored then none else some q.1)⟩)]) := by
  unfold model_output_dict_to_boxlist
  rw [combinedMask_eq ignored out.labels hne]
  have hif : ∀ {α : Type}, (fun q : α × Int => if decide (q.2 ∉ ignored) then some q.1 else none)
      = (fun q : α × Int => if q.2 ∈ ignored then none else some q.1) := by
    intro α; funext q; by_cases hq : q.2 ∈ ignored <;> simp [hq]
  rw [Option.map_some', maskFilter_map_zip (fun x => decide (x ∉ ignored)) out.boxes out.labels hb,
    maskFilter_map_self, maskFilter_map_zip (fun x => decide (x ∉ ignored)) out.scores out.labels hs,
    hif, hif]

/-- The spec's scenario model output: `labels = [0, 1, 2]`. -/
def outW7 : ModelOutput := ⟨[⟨0, 0, 1, 1⟩, ⟨1, 1, 2, 2⟩, ⟨2, 2, 3, 3⟩], [0, 1, 2], [9, 8, 7]⟩

/-- Witness for C7: `labels = [0, 1, 2]` with ignored set `{0}`
yields `class_ids = [0, 1]` and scores `[8, 7]`. -/
theorem C7_from_model_output_witness :
    model_output_dict_to_boxlist [0] outW7
      = some (BoxList.init
          ((outW7.boxes.zip outW7.labels).filterMap
            (fun q => if q.2 ∈ [0] then none else some q.1)) .xyxy
          [("class_ids", ⟨true, (outW7.labels.filter (fun l => decide (l ∉ [0]))).map
              (fun l => ((l - 1 : Int) : ℚ))⟩),
           ("scores", ⟨true, (outW7.scores.zip outW7.labels).filterMap
              (fun q => if q.2 ∈ [0] then none else some q.1)⟩)]) ∧
    (model_output_dict_to_boxlist [0] outW7).map (fun bl => bl.getExtra "class_ids")
      = some (some ⟨true, [0, 1]⟩) :=
  ⟨C7_from_model_output [0] outW7 (by decide) rfl rfl, rfl⟩

/-- The non-id fields of a COCO annotation record. -/
def annBody (a : CocoAnn) : Nat × Int × ℚ × List ℚ × Nat :=
  (a.image_id, a.category_id, a.area, a.bbox, a.iscrowd)

/-- Spec-level annotation record for one box: reading the box's
canonical tuple as `(y_min, x_min, y_max, x_max)` (the convention
documented for this exporter's inputs), the annotation carries the
1-shifted category id, area `(y_max - y_min) * (x_max - x_min)`, and
the box serialized as `(x_min, y_min, width, height)`. -/
def expectedAnnBody (img_id : Nat) (b : Box) (cid : Int) : Nat × Int × ℚ × List ℚ × Nat :=
  let y_min := b.c0
  let x_min := b.c1
  let y_max := b.c2
  let x_max := b.c3
  (img_id, cid + 1, (y_max - y_min) * (x_max - x_min),
    [x_min, y_min, x_max - x_min, y_max - y_min], 0)

lemma cocoAnnsOfTarget_map_body (img : Nat) :
    ∀ (l : List (Box × Int)) (a : Nat),
      (cocoAnnsOfTarget img a l).map annBody
        = l.map (fun q => expectedAnnBody img q.1 q.2) := by
  intro l
  induction l with
  | nil => intro a; rfl
  | cons q l ih =>
    intro a
    simp only [cocoAnnsOfTarget, List.map_cons, ih]
    rfl

lemma cocoAnnsOfTarget_map_id (img : Nat) :
    ∀ (l : List (Box × Int)) (a : Nat),
      (cocoAnnsOfTarget img a l).map CocoAnn.id = List.range' a l.length := by
  intro l
  induction l with
  | nil => intro a; rfl
  | cons q l ih =>
    intro a
    simp only [cocoAnnsOfTarget, List.map_cons, ih, List.length_cons, List.range'_succ]

lemma cocoAnnsLoop_map_body :
    ∀ (ts : List GTTarget) (i a : Nat),
      (cocoAnnsLoop ts i a).map annBody
        = (List.enumFrom i ts).flatMap (fun p =>
            (p.2.boxes.zip p.2.class_ids).map (fun q => expectedAnnBody p.1 q.1 q.2)) := by
  intro ts
  induction ts with
  | nil => intro i a; rfl
  | cons t ts ih =>
    intro i a
    simp only [cocoAnnsLoop, List.enumFrom, List.map_append, List.flatMap_cons,
      cocoAnnsOfTarget_map_body, ih]

lemma cocoAnnsOfTarget_length (img : Nat) :
    ∀ (l : List (Box × Int)) (a : Nat),
      (cocoAnnsOfTarget img a l).length = l.length := by
  intro l
  induction l with
  | nil => intro a; rfl
  | cons q l ih => intro a; simp [cocoAnnsOfTarget, ih]

lemma cocoAnnsLoop_map_id :
    ∀ (ts : List GTTarget) (i a : Nat),
      (cocoAnnsLoop ts i a).map CocoAnn.id
        = List.range' a (cocoAnnsLoop ts i a).length := by
  intro ts
  induction ts with
  | nil => intro i a; rfl
  | cons t ts ih =>
    intro i a
    have h0 : (cocoAnnsOfTarget i a (t.boxes.zip t.class_ids)).map CocoAnn.id
        = List.range' a (cocoAnnsOfTarget i a (t.boxes.zip t.class_ids)).length := by
      rw [cocoAnnsOfTarget_map_id, cocoAnnsOfTarget_length]
    show ((cocoAnnsOfTarget i a (t.boxes.zip t.class_ids))
        ++ cocoAnnsLoop ts (i + 1)
            (a + (cocoAnnsOfTarget i a (t.boxes.zip t.class_ids)).length)).map CocoAnn.id
      = List.range' a ((cocoAnnsOfTarget i a (t.boxes.zip t.class_ids))
          ++ cocoAnnsLoop ts (i + 1)
              (a + (cocoAnnsOfTarget i a (t.boxes.zip t.class_ids)).length)).length
    rw [List.map_append, h0, ih, List.length_append]
    generalize (cocoAnnsOfTarget i a (t.boxes.zip t.class_ids)).length = n1
    generalize (cocoAnnsLoop ts (i + 1) (a + n1)).length = n2
    have hr := List.range'_append a n1 n2 1
    simp only [Nat.one_mul] at hr
    rw [hr, Nat.add_comm n2 n1]

/-- C8.  `get_coco_gt` assigns image ids 1, 2, ... in input order,
gives every annotation a sequential id starting at 1, shifts every
category id up by 1, emits for every box — read canonically as
`(y_min, x_min, y_max, x_max)` — an annotation with area
`(y_max - y_min) * (x_max - x_min)` and bbox
`(x_min, y_min, width, height)`, and synthesizes the category list
`{1..num_class_ids}` with string names equal to the 1-indexed id. -/
theorem C8_coco_gt_export (targets : List GTTarget) (num_class_ids : Nat) :
    (get_coco_gt targets num_class_ids).images.map CocoImage.id
      = List.range' 1 targets.length ∧
    (get_coco_gt targets num_class_ids).annotations.map CocoAnn.id
      = List.range' 1 (get_coco_gt targets num_class_ids).annotations.length ∧
    (get_coco_gt targets num_class_ids).annotations.map annBody
      = (List.enumFrom 1 targets).flatMap (fun p =>
          (p.2.boxes.zip p.2.class_ids).map (fun q => expectedAnnBody p.1 q.1 q.2)) ∧
    (get_coco_gt targets num_class_ids).categories
      = (List.range num_class_ids).map (fun c =>
          { id := c + 1, name := toString (c + 1), supercategory := "super" }) := by
  refine ⟨?_, cocoAnnsLoop_map_id targets 1 1, cocoAnnsLoop_map_body targets 1 1, rfl⟩
  have h1 : (get_coco_gt targets num_class_ids).images.map CocoImage.id
      = (List.range targets.length).map (fun i => i + 1) := by
    simp [get_coco_gt]
  rw [h1, List.range'_eq_map_range]
  exact List.map_congr_left (fun a _ => Nat.add_comm a 1)

/-- Reverse the row order of a `BoxList`: reverse `boxes` and every
extras value. -/
def BoxList.reverseRows (bl : BoxList) : BoxList :=
  ⟨bl.boxes.reverse, bl.extras.map (fun kv => (kv.1, ⟨kv.2.isTensor, kv.2.vals.reverse⟩))⟩

lemma getD_reverse {α : Type} (l : List α) (i : Nat) (d : α) (h : i < l.length) :
    l.reverse.getD i d = l.getD (l.length - 1 - i) d := by
  rw [List.getD_eq_getElem?_getD, List.getD_eq_getElem?_getD,
    List.getElem?_eq_getElem (by simpa using h),
    List.getElem?_eq_getElem (show l.length - 1 - i < l.length by omega)]
  rw [List.getElem_reverse]

/-- Row `i` of the reversed collection is row `n - 1 - i` of the
original, provided the extras arrays are parallel to `boxes`. -/
lemma reverseRows_row (bl : BoxList) (hI : bl.parallelInvariant) (i : Nat)
    (h : i < bl.boxes.length) :
    bl.reverseRows.row i = bl.row (bl.boxes.length - 1 - i) := by
  unfold BoxList.row
  rw [show bl.reverseRows.boxes = bl.boxes.reverse from rfl,
    getD_reverse bl.boxes i default h]
  congr 1
  rw [show bl.reverseRows.extras
      = bl.extras.map (fun kv => (kv.1, ⟨kv.2.isTensor, kv.2.vals.reverse⟩)) from rfl,
    List.map_map]
  apply List.map_congr_left
  intro kv hkv
  show kv.2.vals.reverse.getD i 0 = kv.2.vals.getD (bl.boxes.length - 1 - i) 0
  have hlen : kv.2.vals.length = bl.boxes.length := hI kv hkv
  rw [getD_reverse kv.2.vals i 0 (by omega), hlen]

/-- The multiset of rows is invariant under row reversal. -/
lemma rows_reverse_toFinset (bl : BoxList) (hI : bl.parallelInvariant) :
    bl.reverseRows.rows.toFinset = bl.rows.toFinset := by
  apply Finset.ext
  intro x
  have hlen : bl.reverseRows.boxes.length = bl.boxes.length := List.length_reverse _
  simp only [List.mem_toFinset, BoxList.rows, List.mem_map, List.mem_range, hlen]
  constructor
  · rintro ⟨i, hi, rfl⟩
    refine ⟨bl.boxes.length - 1 - i, by omega, ?_⟩
    exact (reverseRows_row bl hI i hi).symm
  · rintro ⟨i, hi, rfl⟩
    refine ⟨bl.boxes.length - 1 - i, by omega, ?_⟩
    rw [reverseRows_row bl hI (bl.boxes.length - 1 - i) (by omega)]
    congr 1
    omega

/-- C9.  `equal` returns true iff the two collections have the same
length and the same set of box+extras row tuples; in particular,
reversing the row order of a well-formed collection leaves `equal`
true against the original. -/
theorem C9_equal_ignores_order :
    (∀ a b : BoxList, a.equal b = true ↔
      (b.length = a.length ∧ a.rows.toFinset = b.rows.toFinset)) ∧
    (∀ bl : BoxList, bl.parallelInvariant → bl.equal bl.reverseRows = true) := by
  have hiff : ∀ a b : BoxList, a.equal b = true ↔
      (b.length = a.length ∧ a.rows.toFinset = b.rows.toFinset) := by
    intro a b
    unfold BoxList.equal
    by_cases h : b.length = a.length
    · simp [h]
    · simp [h]
  refine ⟨hiff, fun bl hI => ?_⟩
  refine (hiff bl bl.reverseRows).mpr ⟨?_, (rows_reverse_toFinset bl hI).symm⟩
  show bl.boxes.reverse.length = bl.boxes.length
  exact List.length_reverse bl.boxes

/-- A concrete well-formed two-row `BoxList`. -/
def blW9 : BoxList :=
  BoxList.init [⟨1, 2, 3, 4⟩, ⟨5, 6, 7, 8⟩] .xyxy [("scores", ⟨true, [9, 10]⟩)]

/-- Witness for C9: a two-row collection compares equal to its
reversal. -/
theorem C9_equal_ignores_order_witness :
    blW9.equal blW9.reverseRows = true ∧
    blW9.reverseRows.boxes = [⟨5, 6, 7, 8⟩, ⟨1, 2, 3, 4⟩] :=
  ⟨C9_equal_ignores_order.2 blW9 (by decide), rfl⟩

/-- The values of the `k` extra of `bl` (empty when absent). -/
def extraVals (bl : BoxList) (k : String) : List ℚ :=
  ((bl.extras.lookup k).getD default).vals

lemma insertKeys_of_forall_mem (ks : List String) :
    ∀ a : List String, (∀ k ∈ ks, k ∈ a) → insertKeys a ks = a := by
  induction ks with
  | nil => intro a _; rfl
  | cons k ks ih =>
    intro a h
    have hk : k ∈ a := h k (List.mem_cons_self k ks)
    show ks.foldl (fun a' k' => if k' ∈ a' then a' else a' ++ [k'])
        (if k ∈ a then a else a ++ [k]) = a
    rw [if_pos hk]
    exact ih a (fun k' hk' => h k' (List.mem_cons_of_mem k hk'))

lemma insertKeys_disjoint (ks : List String) :
    ∀ a : List String, ks.Nodup → (∀ k ∈ ks, k ∉ a) → insertKeys a ks = a ++ ks := by
  induction ks with
  | nil => intro a _ _; exact (List.append_nil a).symm
  | cons k ks ih =>
    intro a hnd h
    have hk : k ∉ a := h k (List.mem_cons_self k ks)
    show ks.foldl (fun a' k' => if k' ∈ a' then a' else a' ++ [k'])
        (if k ∈ a then a else a ++ [k]) = a ++ k :: ks
    rw [if_neg hk]
    have hnd' : ks.Nodup := (List.nodup_cons.mp hnd).2
    have hknotin : k ∉ ks := (List.nodup_cons.mp hnd).1
    have h' : ∀ k' ∈ ks, k' ∉ a ++ [k] := by
      intro k' hk'
      rw [List.mem_append, List.mem_singleton]
      push_neg
      exact ⟨h k' (List.mem_cons_of_mem k hk'), fun he => hknotin (he ▸ hk')⟩
    have hres := ih (a ++ [k]) hnd' h'
    rw [List.append_assoc, List.singleton_append] at hres
    exact hres

/-- Over inputs with identical key lists, the `defaultdict` key
accumulation of `cat` produces exactly that key list. -/
lemma cat_keys (ks : List String) (hnd : ks.Nodup) :
    ∀ bls : List BoxList, bls ≠ [] → (∀ bl ∈ bls, bl.extras.map Prod.fst = ks) →
      bls.foldl (fun a bl => insertKeys a (bl.extras.map Prod.fst)) [] = ks := by
  have hstep : ∀ bls : List BoxList, (∀ bl ∈ bls, bl.extras.map Prod.fst = ks) →
      bls.foldl (fun a bl => insertKeys a (bl.extras.map Prod.fst)) ks = ks := by
    intro bls
    induction bls with
    | nil => intro _; rfl
    | cons bl bls ih =>
      intro h
      show bls.foldl _ (insertKeys ks (bl.extras.map Prod.fst)) = ks
      rw [h bl (List.mem_cons_self bl bls), insertKeys_of_forall_mem ks ks (fun k hk => hk)]
      exact ih (fun b hb => h b (List.mem_cons_of_mem bl hb))
  intro bls hne h
  cases bls with
  | nil => exact absurd rfl hne
  | cons bl bls =>
    show bls.foldl _ (insertKeys [] (bl.extras.map Prod.fst)) = ks
    rw [h bl (List.mem_cons_self bl bls),
      insertKeys_disjoint ks [] hnd (fun k _ => List.not_mem_nil k), List.nil_append]
    exact hstep bls (fun b hb => h b (List.mem_cons_of_mem bl hb))

lemma lookup_map_key {γ : Type} (f : String → γ) (k : String) :
    ∀ ks : List String, k ∈ ks →
      List.lookup k (ks.map (fun x => (x, f x))) = some (f k) := by
  intro ks
  induction ks with
  | nil => intro h; exact absurd h (List.not_mem_nil k)
  | cons a ks ih =>
    intro h
    by_cases he : k = a
    · subst he
      simp [List.lookup]
    · have hb : (k == a) = false := beq_false_of_ne he
      have hm : k ∈ ks := by
        rcases List.mem_cons.mp h with h1 | h1
        · exact absurd h1 he
        · exact h1
      rw [List.map_cons]
      simp only [List.lookup, hb]
      exact ih hm

lemma lookup_isSome_of_mem_keys {β : Type} (k : String) :
    ∀ l : List (String × β), k ∈ l.map Prod.fst → (List.lookup k l).isSome = true := by
  intro l
  induction l with
  | nil => intro h; simp at h
  | cons kv l ih =>
    intro h
    by_cases he : k = kv.1
    · have hb : (k == kv.1) = true := beq_iff_eq.mpr he
      simp [List.lookup, hb]
    · have hb : (k == kv.1) = false := beq_false_of_ne he
      have hm : k ∈ l.map Prod.fst := by
        rw [List.map_cons] at h
        rcases List.mem_cons.mp h with h1 | h1
        · exact absurd h1 he
        · exact h1
      simp only [List.lookup, hb]
      exact ih hm

/-- When every input has the key, the `torch.cat` of the collected
values is the concatenation, in input order, of each input's
values for the key. -/
lemma cat_extra_vals (k : String) :
    ∀ bls : List BoxList, (∀ bl ∈ bls, (bl.extras.lookup k).isSome = true) →
      (bls.filterMap (fun bl => bl.extras.lookup k)).flatMap ExVal.vals
        = (bls.map (fun bl => extraVals bl k)).flatten := by
  intro bls
  induction bls with
  | nil => intro _; rfl
  | cons bl bls ih =>
    intro h
    obtain ⟨v, hv⟩ := Option.isSome_iff_exists.mp (h bl (List.mem_cons_self bl bls))
    have hx : extraVals bl k = v.vals := by unfold extraVals; rw [hv]; rfl
    rw [List.map_cons, List.flatten_cons,
      List.filterMap_cons_some (f := fun b : BoxList => List.lookup k b.extras) hv,
      List.flatMap_cons, ih (fun b hb => h b (List.mem_cons_of_mem bl hb)), hx]

/-- C5, counterexample.  Concatenating two `BoxList`s whose extras
key-sets differ (`{scores}` vs `{}`) raises nothing: `cat` returns a
`BoxList` with 2 boxes whose `scores` extra silently kept only the
entries of the first input (length 1), violating invariant I1. -/
theorem C5_cat_mismatched_keys_silent :
    (BoxList.cat [BoxList.init [⟨0, 0, 1, 1⟩] .xyxy [("scores", ⟨true, [9]⟩)],
        BoxList.init [⟨2, 2, 3, 3⟩] .xyxy []]).length = 2 ∧
    (BoxList.cat [BoxList.init [⟨0, 0, 1, 1⟩] .xyxy [("scores", ⟨true, [9]⟩)],
        BoxList.init [⟨2, 2, 3, 3⟩] .xyxy []]).extras = [("scores", ⟨true, [9]⟩)] ∧
    ¬ (BoxList.cat [BoxList.init [⟨0, 0, 1, 1⟩] .xyxy [("scores", ⟨true, [9]⟩)],
        BoxList.init [⟨2, 2, 3, 3⟩] .xyxy []]).parallelInvariant := by decide

/-- C5, amended.  `cat` performs no key-set validation and raises no
error.  When the inputs' extras key lists are identical, the result's
boxes and every identically-named extra are the inputs' arrays
concatenated in input order; when the key-sets differ, each key
silently concatenates only the inputs that contain it. -/
theorem C5_cat_concatenates (bls : List BoxList) (ks : List String)
    (hne : bls ≠ []) (hnd : ks.Nodup)
    (hk : ∀ bl ∈ bls, bl.extras.map Prod.fst = ks) :
    (BoxList.cat bls).boxes = bls.flatMap BoxList.boxes ∧
    (BoxList.cat bls).extras.map Prod.fst = ks ∧
    (∀ k ∈ ks, (BoxList.cat bls).getExtra k
      = some ⟨true, (bls.map (fun bl => extraVals bl k)).flatten⟩) := by
  have hkeys : bls.foldl (fun a bl => insertKeys a (bl.extras.map Prod.fst)) [] = ks :=
    cat_keys ks hnd bls hne hk
  have hex : (BoxList.cat bls).extras
      = ks.map (fun k => (k, ExVal.mk true
          ((bls.filterMap (fun bl => bl.extras.lookup k)).flatMap ExVal.vals))) := by
    show (bls.foldl (fun a bl => insertKeys a (bl.extras.map Prod.fst)) []).map
        (fun k => (k, ExVal.mk true
          ((bls.filterMap (fun bl => bl.extras.lookup k)).flatMap ExVal.vals))) = _
    rw [hkeys]
  refine ⟨rfl, ?_, ?_⟩
  · rw [hex, List.map_map]
    exact List.map_id' ks
  · intro k hkmem
    have hsome : ∀ bl ∈ bls, (bl.extras.lookup k).isSome = true := by
      intro bl hbl
      exact lookup_isSome_of_mem_keys k bl.extras (by rw [hk bl hbl]; exact hkmem)
    unfold BoxList.getExtra
    rw [hex, lookup_map_key _ k ks hkmem, cat_extra_vals k bls hsome]

/-- Two concrete one-box lists with identical extras key-sets. -/
def blW5a : BoxList := BoxList.init [⟨0, 0, 1, 1⟩] .xyxy [("scores", ⟨true, [5]⟩)]

/-- Second input for the C5 witness. -/
def blW5b : BoxList := BoxList.init [⟨2, 2, 3, 3⟩] .xyxy [("scores", ⟨true, [6]⟩)]

/-- Witness for C5: concatenating two lists that share the key set
`{scores}` concatenates boxes and the `scores` extra in input
order. -/
theorem C5_cat_concatenates_witness :
    ((BoxList.cat [blW5a, blW5b]).boxes = [blW5a, blW5b].flatMap BoxList.boxes ∧
      (BoxList.cat [blW5a, blW5b]).extras.map Prod.fst = ["scores"] ∧
      (∀ k ∈ ["scores"], (BoxList.cat [blW5a, blW5b]).getExtra k
        = some ⟨true, ([blW5a, blW5b].map (fun bl => extraVals bl k)).flatten⟩)) ∧
    BoxList.cat [blW5a, blW5b]
      = BoxList.init [⟨0, 0, 1, 1⟩, ⟨2, 2, 3, 3⟩] .xyxy [("scores", ⟨true, [5, 6]⟩)] :=
  ⟨C5_cat_concatenates [blW5a, blW5b] ["scores"] (by decide) (by decide) (by decide),
    rfl⟩

/-- C10.  `BoxList.copy` never returns a `BoxList`: the first
expression it evaluates is `self.boxes.copy()`, and `torch.Tensor`
has no `copy` method, so every call raises `AttributeError` (and even
if it did not, the `cond=` keyword argument would be stored by the
constructor as an extras entry named `'cond'`). -/
theorem C10_copy_always_fails (bl : BoxList) :
    bl.copy = .error "AttributeError" := rfl
